import Mathlib

/-!
Verification of the text decompression engine of `book_tools/pymobi/compression.py`
(classes `Palmdoc` and `Huffcdic`).

Bytes are modelled as `List Nat` (each element a byte value).  The source is
Python-2-idiom code; where its behaviour depends on Python semantics
(slice clamping, negative indexing, exceptions) those semantics are embedded
explicitly.  Python exceptions are modelled by the `PyErr` type below; an
uncaught exception is an `.error` result, and for stateful methods the state
that existed at the moment of the raise is returned alongside the error, so
that partial-mutation behaviour is faithfully visible.
-/

/-- Python exceptions that the module can raise, by site:
`invalidHuffHeader` / `invalidCdicHeader` are `ValueError("invalid huff header")` /
`ValueError("invalid cdic header")`; `notImplement` is `ValueError("not implement")`;
`assertFailed` is `AssertionError`; `structShort` is `struct.error`;
`indexOut` is `IndexError`; `typeBad` is `TypeError` (tuple-unpacking `None`);
`attrMissing` is `AttributeError`; `negShift` is `ValueError` from a negative
shift count; `fuel` is a modelling artifact marking exhaustion of the explicit
recursion budget given to the unbounded `while` loop (never a Python behaviour). -/
inductive PyErr where
  | invalidHuffHeader
  | invalidCdicHeader
  | notImplement
  | assertFailed
  | structShort
  | indexOut
  | typeBad
  | attrMissing
  | negShift
  | fuel
deriving DecidableEq, Repr

deriving instance DecidableEq for Except

set_option maxRecDepth 40000

/-- Python indexing `l[r]` for a possibly negative index `r`: a negative index
counts from the end (`-1` is the last element); the result is the physical
(non-negative) position, or `none` when an `IndexError` would be raised. -/
def pyIdx (len : Nat) (r : Int) : Option Nat :=
  if r < 0 then
    if -r ≤ (len : Int) then some ((len : Int) + r).toNat else none
  else
    if r < (len : Int) then some r.toNat else none

/-- Python element access `l[r]` with Python index semantics. -/
def pyGet (l : List Nat) (r : Int) : Option Nat :=
  match pyIdx l.length r with
  | none => none
  | some k => l[k]?

/-- Python slice `l[a : b]`: negative bounds count from the end, then both
bounds are clamped into `[0, len]`; an empty slice results when the clamped
stop does not exceed the clamped start.  Never raises. -/
def pySlice (l : List Nat) (a b : Int) : List Nat :=
  let len : Int := l.length
  let a' : Int := if a < 0 then len + a else a
  let b' : Int := if b < 0 then len + b else b
  let s : Nat := (min (max a' 0) len).toNat
  let e : Nat := (min (max b' 0) len).toNat
  (l.drop s).take (e - s)

/-- Big-endian value of a byte list (`struct` `">..."` integer decoding). -/
def beNat (l : List Nat) : Nat :=
  l.foldl (fun a b => a * 256 + b) 0

/-- Split a byte list into consecutive big-endian 32-bit values. -/
def chunksU32 : List Nat → List Nat
  | a :: b :: c :: d :: rest => (((a * 256 + b) * 256 + c) * 256 + d) :: chunksU32 rest
  | _ => []

/-- Split a byte list into consecutive big-endian 16-bit values. -/
def chunksU16 : List Nat → List Nat
  | a :: b :: rest => (a * 256 + b) :: chunksU16 rest
  | _ => []

/-- `struct.unpack_from(">{cnt}L", buf, off)`: `cnt` big-endian 32-bit values
starting at byte offset `off`; `none` is `struct.error` (buffer too short). -/
def unpackU32s (cnt : Nat) (buf : List Nat) (off : Nat) : Option (List Nat) :=
  let seg := (buf.drop off).take (4 * cnt)
  if seg.length = 4 * cnt then some (chunksU32 seg) else none

/-- `struct.unpack_from(">{cnt}H", buf, off)`: `cnt` big-endian 16-bit values. -/
def unpackU16s (cnt : Nat) (buf : List Nat) (off : Nat) : Option (List Nat) :=
  let seg := (buf.drop off).take (2 * cnt)
  if seg.length = 2 * cnt then some (chunksU16 seg) else none

/-- `struct.Struct(">H").unpack_from(buf, off)`: one big-endian 16-bit value. -/
def readU16 (buf : List Nat) (off : Nat) : Option Nat :=
  let seg := (buf.drop off).take 2
  if seg.length = 2 then some (beNat seg) else none

/-- `struct.Struct(">Q").unpack_from(buf, off)`: one big-endian 64-bit value. -/
def readU64 (buf : List Nat) (off : Nat) : Option Nat :=
  let seg := (buf.drop off).take 8
  if seg.length = 8 then some (beNat seg) else none

/-- The eight zero bytes appended to a record before Huffman bit decoding. -/
def zeros8 : List Nat := List.replicate 8 0

/-- `Palmdoc.pack`: `raise ValueError("not implement")` for every input. -/
def Palmdoc.pack (_i : List Nat) : Except PyErr (List Nat) :=
  .error .notImplement

/-- Run-length fill branch of `Palmdoc.unpack3` (`distance <= length`):
`for z in range(n): o += o[-m].to_bytes(1, "big")`.  Each iteration re-reads
index `-m` of the output *as grown so far*; `o[-m]` raises `IndexError` when
that index does not exist. -/
def Palmdoc.unpack3Fill (o : List Nat) (m : Nat) : Nat → Except PyErr (List Nat)
  | 0 => .ok o
  | n + 1 =>
    match pyGet o (-(m : Int)) with
    | none => .error .indexOut
    | some b => Palmdoc.unpack3Fill (o ++ [b]) m n

/-- Main loop of `Palmdoc.unpack3`: `o` is the output built so far and `p` the
position of the next unread input byte.  Mirrors the source byte-for-byte:
raw copies and bulk back-references use Python slices (which clamp silently),
a two-byte back-reference whose second byte is missing is silently skipped.
The `while p < len(i)` loop is embedded with an explicit iteration budget
`gas`; since `p` strictly increases each iteration, `gas = i.length` (as
passed by `unpack3`) always suffices, so the `.fuel` branch is unreachable
from `unpack3`. -/
def Palmdoc.unpack3Loop (i : List Nat) : Nat → List Nat → Nat → Except PyErr (List Nat)
  | 0, o, p => if p < i.length then .error .fuel else .ok o
  | gas + 1, o, p =>
    if p < i.length then
      let c := i.getD p 0
      if 1 ≤ c ∧ c ≤ 8 then
        Palmdoc.unpack3Loop i gas (o ++ pySlice i ((p + 1 : Nat) : Int) ((p + 1 + c : Nat) : Int)) (p + 1 + c)
      else if c < 128 then
        Palmdoc.unpack3Loop i gas (o ++ [c]) (p + 1)
      else if 192 ≤ c then
        Palmdoc.unpack3Loop i gas (o ++ [32, c ^^^ 128]) (p + 1)
      else
        if p + 1 < i.length then
          let c2 := (c <<< 8) ||| i.getD (p + 1) 0
          let m := (c2 >>> 3) &&& 0x7FF
          let n := (c2 &&& 7) + 3
          if m > n then
            Palmdoc.unpack3Loop i gas (o ++ pySlice o (-(m : Int)) ((n : Int) - (m : Int))) (p + 2)
          else
            match Palmdoc.unpack3Fill o m n with
            | .error e => .error e
            | .ok o2 => Palmdoc.unpack3Loop i gas o2 (p + 2)
        else
          Palmdoc.unpack3Loop i gas o (p + 1)
    else
      .ok o

/-- `Palmdoc.unpack3`: LZ77-style byte decoder over a whole record. -/
def Palmdoc.unpack3 (i : List Nat) : Except PyErr (List Nat) :=
  Palmdoc.unpack3Loop i i.length [] 0

/-- The 8-byte magic/version tag `"HUFF\x00\x00\x00\x18"` checked by `loadHuff`. -/
def huffMagic : List Nat := [72, 85, 70, 70, 0, 0, 0, 24]

/-- The 8-byte magic/version tag `"CDIC\x00\x00\x00\x10"` checked by `loadCdic`. -/
def cdicMagic : List Nat := [67, 68, 73, 67, 0, 0, 0, 16]

/-- A dictionary slot: `some (bytes, flag)` is the Python tuple
`(slice, flag)` with truthiness of the flag made a `Bool`; `none` is the
`None` placeholder written while a slot is being resolved. -/
abbrev Slot : Type := Option (List Nat × Bool)

/-- State of a `Huffcdic` object.  Each field is `none` while the
corresponding Python attribute has never been assigned (so that reading it
raises `AttributeError`). -/
structure HuffState where
  dict1 : Option (List (Nat × Bool × Nat))
  mincode : Option (List Nat)
  maxcode : Option (List Nat)
  dictionary : Option (List Slot)
deriving DecidableEq

/-- A freshly constructed `Huffcdic()` object: no attribute assigned yet. -/
def HuffState.init : HuffState := ⟨none, none, none, none⟩

/-- The read-only tables `unpack` consults (`self.dict1`, `self.mincode`,
`self.maxcode`); the mutable `self.dictionary` is threaded separately. -/
structure HTable where
  dict1 : List (Nat × Bool × Nat)
  mincode : List Nat
  maxcode : List Nat
deriving DecidableEq

/-- Eager Python-2 `map` over a function that may raise: the first exception
propagates, later elements are not visited. -/
def exceptMap {A : Type} (f : Nat → Except PyErr A) : List Nat → Except PyErr (List A)
  | [] => .ok []
  | a :: rest =>
    match f a with
    | .error e => .error e
    | .ok b =>
      match exceptMap f rest with
      | .error e => .error e
      | .ok bs => .ok (b :: bs)

/-- The inner `dict1_unpack` of `loadHuff`: decompose a raw 32-bit table
value into `(codelen, term, maxcode)`; `assert codelen != 0`, and
`if codelen <= 8: assert term`.  A failed `assert` raises `AssertionError`. -/
def Huffcdic.dict1_unpack (v : Nat) : Except PyErr (Nat × Bool × Nat) :=
  let codelen := v &&& 0x1F
  let term := v &&& 0x80
  let maxcode := v >>> 8
  if codelen = 0 then .error .assertFailed
  else if codelen ≤ 8 ∧ term = 0 then .error .assertFailed
  else .ok (codelen, term ≠ 0, ((maxcode + 1) <<< (32 - codelen)) - 1)

/-- Elements of `l` at even positions (`l[0::2]`). -/
def everyOther : List Nat → List Nat
  | [] => []
  | [a] => [a]
  | a :: _ :: rest => a :: everyOther rest

/-- The `mincode` tuple built by `loadHuff` from the 64-entry second table:
`enumerate((0,) + dict2[0::2])` with each value shifted by `32 - codelen`. -/
def Huffcdic.buildMincode (dict2 : List Nat) : List Nat :=
  (0 :: everyOther dict2).enum.map (fun kv => kv.2 <<< (32 - kv.1))

/-- The `maxcode` tuple built by `loadHuff`:
`enumerate((0,) + dict2[1::2])` with `((v + 1) << (32 - codelen)) - 1`. -/
def Huffcdic.buildMaxcode (dict2 : List Nat) : List Nat :=
  (0 :: everyOther (dict2.drop 1)).enum.map (fun kv => ((kv.2 + 1) <<< (32 - kv.1)) - 1)

/-- `Huffcdic.loadHuff`.  Returns the state as it is when the method returns
or raises (Python attribute assignments made before an exception persist:
`self.dict1` is assigned before the second table is read). -/
def Huffcdic.loadHuff (huff : List Nat) (st : HuffState) : HuffState × Option PyErr :=
  if huff.take 8 ≠ huffMagic then (st, some .invalidHuffHeader)
  else
    match unpackU32s 2 huff 8 with
    | none => (st, some .structShort)
    | some offs =>
      match offs with
      | [off1, off2] =>
        match unpackU32s 256 huff off1 with
        | none => (st, some .structShort)
        | some vs =>
          match exceptMap Huffcdic.dict1_unpack vs with
          | .error e => (st, some e)
          | .ok d1 =>
            let st1 := { st with dict1 := some d1 }
            match unpackU32s 64 huff off2 with
            | none => (st1, some .structShort)
            | some dict2 =>
              ({ st1 with
                  mincode := some (Huffcdic.buildMincode dict2),
                  maxcode := some (Huffcdic.buildMaxcode dict2),
                  dictionary := some [] }, none)
      | _ => (st, some .structShort)

/-- The inner `getslice` of `loadCdic`: read a 16-bit length-and-flag word at
`16 + off`, slice out the low-15-bit many phrase bytes starting at `18 + off`
(Python slicing clamps silently), and tag with the high bit. -/
def Huffcdic.getslice (cdic : List Nat) (off : Nat) : Except PyErr (List Nat × Bool) :=
  match readU16 cdic (16 + off) with
  | none => .error .structShort
  | some blen =>
    .ok (pySlice cdic ((18 + off : Nat) : Int) ((18 + off + (blen &&& 0x7FFF) : Nat) : Int),
         blen &&& 0x8000 ≠ 0)

/-- `Huffcdic.loadCdic`.  Reading `len(self.dictionary)` raises
`AttributeError` when `loadHuff` has never assigned the attribute; the
single mutation `self.dictionary += ...` is the final statement, so every
failure leaves the state untouched. -/
def Huffcdic.loadCdic (cdic : List Nat) (st : HuffState) : HuffState × Option PyErr :=
  if cdic.take 8 ≠ cdicMagic then (st, some .invalidCdicHeader)
  else
    match unpackU32s 2 cdic 8 with
    | none => (st, some .structShort)
    | some offs =>
      match offs with
      | [phrases, bits] =>
        match st.dictionary with
        | none => (st, some .attrMissing)
        | some dict =>
          let n : Int := min ((2 : Int) ^ bits) ((phrases : Int) - (dict.length : Int))
          if n < 0 then (st, some .structShort)
          else
            match unpackU16s n.toNat cdic 16 with
            | none => (st, some .structShort)
            | some offsets =>
              match exceptMap (Huffcdic.getslice cdic) offsets with
              | .error e => (st, some e)
              | .ok slots =>
                ({ st with dictionary := some (dict ++ slots.map (fun sl => some sl)) }, none)
      | _ => (st, some .structShort)

/-- `Huffcdic.pack`: `raise ValueError("not implement")` for every input. -/
def Huffcdic.pack (_i : List Nat) : Except PyErr (List Nat) :=
  .error .notImplement

/-- The widening loop `while code < self.mincode[codelen]: codelen += 1` of
`unpack`, iterating over `mincode` from position `codelen` upward (the list
argument is `mincode.drop codelen`); running past the end of the 33-entry
tuple raises `IndexError`. -/
def Huffcdic.findLenAux (code : Nat) : List Nat → Nat → Except PyErr Nat
  | [], _ => .error .indexOut
  | mc :: rest, codelen =>
    if code < mc then Huffcdic.findLenAux code rest (codelen + 1) else .ok codelen

/-- Widening search for the true code length starting from the fast-table
entry's `codelen`. -/
def Huffcdic.findLen (mincode : List Nat) (code : Nat) (codelen : Nat) : Except PyErr Nat :=
  Huffcdic.findLenAux code (mincode.drop codelen) codelen

/-- Lines 122-125 of `unpack`: reload the 64-bit window when no unconsumed
bits remain in the current 32-bit slice (`if n <= 0: pos += 4; x = q(data, pos);
n += 32`). -/
def Huffcdic.reload (data : List Nat) (pos : Nat) (x : Nat) (n : Int) :
    Except PyErr (Nat × Nat × Int) :=
  if n ≤ 0 then
    match readU64 data (pos + 4) with
    | none => .error .structShort
    | some x2 => .ok (pos + 4, x2, n + 32)
  else .ok (pos, x, n)

/-- Lines 128-132 of `unpack`: look up `self.dict1[code >> 24]`; when the
entry is not terminal, widen the code length and take `self.maxcode[codelen]`.
Returns the final `(codelen, maxcode)`. -/
def Huffcdic.resolveCode (t : HTable) (code : Nat) : Except PyErr (Nat × Nat) :=
  match t.dict1[code >>> 24]? with
  | none => .error .indexOut
  | some (codelen, term, maxc) =>
    if term then .ok (codelen, maxc)
    else
      match Huffcdic.findLen t.mincode code codelen with
      | .error e => .error e
      | .ok cl =>
        match t.maxcode[cl]? with
        | none => .error .indexOut
        | some mc => .ok (cl, mc)

/-- Main loop of `Huffcdic.unpack` (lines 121-146), with one unit of `fuel`
consumed per iteration and per recursive `self.unpack` call (the Python loop
is unbounded: a zero `codelen` would loop forever, and recursion depth is not
structurally bounded).  Returns `(result, dictionary, events)` where
`dictionary` is the shared `self.dictionary` as mutated so far — also on an
exception, mirroring Python's persistent attribute mutations — and `events`
is ghost instrumentation listing, in order, the physical index of every slot
whose stored bytes were handed to a recursive decode.  The recursive call
`self.unpack(slice)` is written out inline as `huffLoop` on the re-padded
slice, which is definitionally `Huffcdic.unpack fuel t d1 slice` below.
A negative shift count (`x >> n` with `n < 0`, or `>> (32 - codelen)` with
`codelen > 32`) raises `ValueError` in Python, embedded as `.negShift`. -/
def Huffcdic.huffLoop :
    Nat → HTable → List Nat → Nat → Nat → Int → Int → List Nat → List Slot →
    (Except PyErr (List Nat)) × List Slot × List Nat
  | 0, _, _, _, _, _, _, _, d => (.error .fuel, d, [])
  | fuel + 1, t, data, pos, x, n, bitsleft, s, d =>
    match Huffcdic.reload data pos x n with
    | .error e => (.error e, d, [])
    | .ok (pos1, x1, n1) =>
      if n1 < 0 then (.error .negShift, d, [])
      else
        let code := (x1 >>> n1.toNat) &&& 0xFFFFFFFF
        match Huffcdic.resolveCode t code with
        | .error e => (.error e, d, [])
        | .ok (codelen, maxcode) =>
          let n2 := n1 - (codelen : Int)
          let bitsleft2 := bitsleft - (codelen : Int)
          if bitsleft2 < 0 then (.ok s, d, [])
          else if 32 < codelen then (.error .negShift, d, [])
          else
            let r := Int.fdiv ((maxcode : Int) - (code : Int)) ((2 : Int) ^ (32 - codelen))
            match pyIdx d.length r with
            | none => (.error .indexOut, d, [])
            | some phys =>
              match d[phys]? with
              | none => (.error .indexOut, d, [])
              | some none => (.error .typeBad, d, [])
              | some (some (slice, flag)) =>
                if flag then
                  Huffcdic.huffLoop fuel t data pos1 x1 n2 bitsleft2 (s ++ slice) d
                else
                  let d1 := d.set phys none
                  match Huffcdic.huffLoop fuel t (slice ++ zeros8) 0
                      (beNat ((slice ++ zeros8).take 8)) 32 (8 * slice.length) [] d1 with
                  | (.error e, dR, evR) => (.error e, dR, phys :: evR)
                  | (.ok resolved, dR, evR) =>
                    let d2 := dR.set phys (some (resolved, true))
                    match Huffcdic.huffLoop fuel t data pos1 x1 n2 bitsleft2 (s ++ resolved) d2 with
                    | (res, dF, evF) => (res, dF, phys :: (evR ++ evF))

/-- `Huffcdic.unpack` on a loaded decoder: pad the record with eight zero
bytes, preload the first 64-bit window at position 0, start with 32 available
bits and `bitsleft = 8 * len(record)`, and run the loop.  (The initial
`q(data, 0)` cannot fail: the padded data always holds at least 8 bytes, so
it is written as the total `beNat` of the first eight bytes.) -/
def Huffcdic.unpack (fuel : Nat) (t : HTable) (d : List Slot) (record : List Nat) :
    (Except PyErr (List Nat)) × List Slot × List Nat :=
  Huffcdic.huffLoop fuel t (record ++ zeros8) 0 (beNat ((record ++ zeros8).take 8)) 32
    (8 * record.length) [] d

/-- Decoding of a whole document: `unpack` once per record, in order,
threading the shared dictionary; an exception aborts the document.  The
third component concatenates the ghost per-record decode events. -/
def Huffcdic.docUnpack (fuel : Nat) (t : HTable) (d : List Slot) :
    List (List Nat) → (Except PyErr (List (List Nat))) × List Slot × List Nat
  | [] => (.ok [], d, [])
  | record :: rest =>
    match Huffcdic.unpack fuel t d record with
    | (.error e, d1, ev) => (.error e, d1, ev)
    | (.ok s, d1, ev) =>
      match Huffcdic.docUnpack fuel t d1 rest with
      | (.error e, d2, ev2) => (.error e, d2, ev ++ ev2)
      | (.ok outs, d2, ev2) => (.ok (s :: outs), d2, ev ++ ev2)

/-- A syntactically valid `HUFF` header blob whose 256 fast-table entries are
all the raw value `0x89` — `codeLength = 9` with the terminal bit set — and
whose second table is all zeros.  Layout: 8 magic bytes, `off1 = 16`,
`off2 = 1040`, 256 big-endian 32-bit entries, 64 big-endian 32-bit values. -/
def huffBlobTerm9 : List Nat :=
  huffMagic ++ [0, 0, 0, 16] ++ [0, 0, 4, 16] ++
    (List.replicate 256 [0, 0, 0, 137]).flatten ++ List.replicate 256 0

/-- A `HUFF` header blob whose 256 fast-table entries are all zero
(`codeLength = 0`), with the same layout as `huffBlobTerm9`. -/
def huffBlobLen0 : List Nat :=
  huffMagic ++ [0, 0, 0, 16] ++ [0, 0, 4, 16] ++ List.replicate 1024 0

/-- A code table whose 256 fast entries are terminal with `codeLength 8` and
`maxCode 0x00FFFFFF` (raw value `0x0088`), as `dict1_unpack` would produce. -/
def tableUniform : HTable :=
  { dict1 := List.replicate 256 (8, true, 0x00FFFFFF)
    mincode := List.replicate 33 0
    maxcode := List.replicate 33 0 }

/-- Like `tableUniform` but entry 255 carries `maxCode 0xFEFFFFFF` (raw value
`0xFE88`, accepted by `dict1_unpack`): for `code = 0xFF000000` the decoded
dictionary index is `(0xFEFFFFFF - 0xFF000000) >> 24 = -1`. -/
def tableNegIdx : HTable :=
  { tableUniform with dict1 := tableUniform.dict1.set 255 (8, true, 0xFEFFFFFF) }

/-- `dict1_unpack` can only raise `AssertionError`. -/
lemma dict1_unpack_error {v : Nat} {e : PyErr} (h : Huffcdic.dict1_unpack v = .error e) :
    e = .assertFailed := by
  simp only [Huffcdic.dict1_unpack] at h
  split at h
  · exact (Except.error.inj h).symm
  · split at h
    · exact (Except.error.inj h).symm
    · exact Except.noConfusion h

/-- Mapping `dict1_unpack` over the raw table can only raise `AssertionError`. -/
lemma exceptMap_dict1_error {vs : List Nat} {e : PyErr}
    (h : exceptMap Huffcdic.dict1_unpack vs = .error e) : e = .assertFailed := by
  induction vs with
  | nil => exact Except.noConfusion h
  | cons a rest ih =>
    rw [exceptMap] at h
    cases ha : Huffcdic.dict1_unpack a with
    | error e1 =>
      rw [ha] at h
      exact Except.error.inj h ▸ dict1_unpack_error ha
    | ok b =>
      rw [ha] at h
      cases hrest : exceptMap Huffcdic.dict1_unpack rest with
      | error e2 => rw [hrest] at h; cases Except.error.inj h; exact ih hrest
      | ok bs => rw [hrest] at h; exact Except.noConfusion h

/-- C9: for every input, the compression direction of both schemes —
`Palmdoc.pack` and `Huffcdic.pack` — raises `ValueError("not implement")`
(an `UnsupportedOperation`-style failure); neither ever returns encoded
output. -/
theorem c9_pack_unsupported (i : List Nat) :
    Palmdoc.pack i = .error .notImplement ∧ Huffcdic.pack i = .error .notImplement :=
  ⟨rfl, rfl⟩

/-- C8: whenever the control byte `c` read by `Palmdoc.unpack3` satisfies
`c >= 192`, the iteration appends exactly the two bytes `0x20` (space) and
`c XOR 0x80`, and advances past the control byte. -/
theorem c8_space_branch (gas : Nat) (i o : List Nat) (p c : Nat)
    (hp : p < i.length) (hc : i.getD p 0 = c) (h192 : 192 ≤ c) :
    Palmdoc.unpack3Loop i (gas + 1) o p =
      Palmdoc.unpack3Loop i gas (o ++ [32, c ^^^ 128]) (p + 1) := by
  have h1 : ¬(1 ≤ c ∧ c ≤ 8) := by omega
  have h2 : ¬(c < 128) := by omega
  simp only [Palmdoc.unpack3Loop, hc, hp, h1, h2, h192, if_true, if_false, ite_true, ite_false]

/-- Witness for C8 at the documented example `[0xC1]`: the branch theorem
applies, and the whole record decodes to `b" A"` (`[0x20, 0x41]`). -/
theorem c8_witness :
    Palmdoc.unpack3Loop [193] 1 [] 0 = Palmdoc.unpack3Loop [193] 0 ([] ++ [32, 193 ^^^ 128]) 1 ∧
    Palmdoc.unpack3 [193] = .ok [32, 65] :=
  ⟨c8_space_branch 0 [193] [] 0 193 (by decide) (by decide) (by decide), rfl⟩

/-- Every exception escaping `exceptMap f` is an exception of `f` itself. -/
lemma exceptMap_error_prop {A : Type} {f : Nat → Except PyErr A} {P : PyErr → Prop}
    (hf : ∀ v e1, f v = .error e1 → P e1) :
    ∀ {vs : List Nat} {e : PyErr}, exceptMap f vs = .error e → P e := by
  intro vs
  induction vs with
  | nil => intro e h; exact Except.noConfusion h
  | cons a rest ih =>
    intro e h
    rw [exceptMap] at h
    cases ha : f a with
    | error e1 => rw [ha] at h; cases Except.error.inj h; exact hf a _ ha
    | ok b =>
      rw [ha] at h
      cases hrest : exceptMap f rest with
      | error e2 => rw [hrest] at h; cases Except.error.inj h; exact ih hrest
      | ok bs => rw [hrest] at h; exact Except.noConfusion h

/-- `getslice` can only raise `struct.error`. -/
lemma getslice_error {cdic : List Nat} {off : Nat} {e : PyErr}
    (h : Huffcdic.getslice cdic off = .error e) : e = .structShort := by
  unfold Huffcdic.getslice at h
  split at h
  · exact (Except.error.inj h).symm
  · exact Except.noConfusion h

/-- After a successful magic check, `loadHuff` can only end in success,
`struct.error`, or `AssertionError` — never `InvalidHeader`. -/
lemma loadHuff_magic_ok_err {huff : List Nat} {st : HuffState} (h : huff.take 8 = huffMagic) :
    (Huffcdic.loadHuff huff st).2 = none ∨
    (Huffcdic.loadHuff huff st).2 = some PyErr.structShort ∨
    (Huffcdic.loadHuff huff st).2 = some PyErr.assertFailed := by
  unfold Huffcdic.loadHuff
  rw [if_neg (not_not_intro h)]
  split
  · exact Or.inr (Or.inl rfl)
  · split
    · split
      · exact Or.inr (Or.inl rfl)
      · split
        next e heq =>
          exact Or.inr (Or.inr (by
            show some e = some PyErr.assertFailed
            rw [exceptMap_error_prop (fun v e1 hv => dict1_unpack_error hv) heq]))
        · split
          · exact Or.inr (Or.inl rfl)
          · exact Or.inl rfl
    · exact Or.inr (Or.inl rfl)

/-- After a successful magic check, `loadCdic` can only end in success,
`struct.error`, or `AttributeError` — never `InvalidHeader`. -/
lemma loadCdic_magic_ok_err {cdic : List Nat} {st : HuffState} (h : cdic.take 8 = cdicMagic) :
    (Huffcdic.loadCdic cdic st).2 = none ∨
    (Huffcdic.loadCdic cdic st).2 = some PyErr.structShort ∨
    (Huffcdic.loadCdic cdic st).2 = some PyErr.attrMissing := by
  unfold Huffcdic.loadCdic
  rw [if_neg (not_not_intro h)]
  split
  · exact Or.inr (Or.inl rfl)
  · split
    · split
      · exact Or.inr (Or.inr rfl)
      · dsimp only
        split
        · exact Or.inr (Or.inl rfl)
        · split
          · exact Or.inr (Or.inl rfl)
          · split
            next e heq =>
              exact Or.inr (Or.inl (by
                show some e = some PyErr.structShort
                rw [exceptMap_error_prop (fun v e1 hv => getslice_error hv) heq]))
            · exact Or.inl rfl
    · exact Or.inr (Or.inl rfl)

/-- C5: each loader fails with its `InvalidHeader`-style error exactly when
the first eight bytes of its blob differ from the expected magic tag, and on
that failure the whole decoder state is returned untouched (the raise
precedes every attribute assignment). -/
theorem c5_invalid_header (huff cdic : List Nat) (st : HuffState) :
    ((Huffcdic.loadHuff huff st).2 = some PyErr.invalidHuffHeader ↔ huff.take 8 ≠ huffMagic) ∧
    (huff.take 8 ≠ huffMagic → Huffcdic.loadHuff huff st = (st, some PyErr.invalidHuffHeader)) ∧
    ((Huffcdic.loadCdic cdic st).2 = some PyErr.invalidCdicHeader ↔ cdic.take 8 ≠ cdicMagic) ∧
    (cdic.take 8 ≠ cdicMagic → Huffcdic.loadCdic cdic st = (st, some PyErr.invalidCdicHeader)) := by
  have hher : ∀ h : huff.take 8 ≠ huffMagic,
      Huffcdic.loadHuff huff st = (st, some PyErr.invalidHuffHeader) := by
    intro h; unfold Huffcdic.loadHuff; rw [if_pos h]
  have hcer : ∀ h : cdic.take 8 ≠ cdicMagic,
      Huffcdic.loadCdic cdic st = (st, some PyErr.invalidCdicHeader) := by
    intro h; unfold Huffcdic.loadCdic; rw [if_pos h]
  refine ⟨⟨fun hres => ?_, fun h => by rw [hher h]⟩, hher, ⟨fun hres => ?_, fun h => by rw [hcer h]⟩, hcer⟩
  · intro hmag
    rcases @loadHuff_magic_ok_err huff st hmag with h1 | h1 | h1 <;> rw [h1] at hres <;> simp at hres
  · intro hmag
    rcases @loadCdic_magic_ok_err cdic st hmag with h1 | h1 | h1 <;> rw [h1] at hres <;> simp at hres

/-- Witness for C5: a junk blob `[1]` makes both loaders fail with their
`InvalidHeader` error and leave the fresh state unchanged. -/
theorem c5_witness :
    Huffcdic.loadHuff [1] HuffState.init = (HuffState.init, some PyErr.invalidHuffHeader) ∧
    Huffcdic.loadCdic [1] HuffState.init = (HuffState.init, some PyErr.invalidCdicHeader) ∧
    (Huffcdic.loadHuff huffBlobTerm9 HuffState.init).2 ≠ some PyErr.invalidHuffHeader :=
  ⟨(c5_invalid_header [1] [1] HuffState.init).2.1 (by decide),
   (c5_invalid_header [1] [1] HuffState.init).2.2.2 (by decide),
   fun h => by
    have := ((c5_invalid_header huffBlobTerm9 [1] HuffState.init).1).mp h
    exact this (by decide)⟩

/-- C10: whenever `loadHuff` succeeds its final assignment resets
`self.dictionary` to the empty list, discarding every slot loaded earlier;
and a `loadCdic` call made before any successful `loadHuff` (the attribute
`self.dictionary` was never assigned) always fails and leaves the state —
in particular the absent dictionary — unchanged. -/
theorem c10_load_order :
    (∀ huff st st', Huffcdic.loadHuff huff st = (st', none) → st'.dictionary = some []) ∧
    (∀ cdic st, st.dictionary = none → ∃ e, Huffcdic.loadCdic cdic st = (st, some e)) := by
  constructor
  · intro huff st st' h
    unfold Huffcdic.loadHuff at h
    split at h
    · simp at h
    · split at h
      · simp at h
      · split at h
        · split at h
          · simp at h
          · split at h
            · simp at h
            · split at h
              · simp at h
              · injection h with h1 h2
                rw [← h1]
        · simp at h
  · intro cdic st hd
    unfold Huffcdic.loadCdic
    split
    · exact ⟨_, rfl⟩
    · split
      · exact ⟨_, rfl⟩
      · split
        · rw [hd]
          exact ⟨_, rfl⟩
        · exact ⟨_, rfl⟩

/-- A raw fast-table value the `loadHuff` asserts actually reject: zero code
length, or a non-terminal entry with code length at most 8. -/
def badDict1Val (v : Nat) : Prop :=
  v &&& 0x1F = 0 ∨ (v &&& 0x1F ≤ 8 ∧ v &&& 0x80 = 0)

/-- A raw table containing a rejected value makes the eager decode of the
256 entries raise `AssertionError`. -/
lemma exceptMap_dict1_bad {vs : List Nat} (hbad : ∃ v ∈ vs, badDict1Val v) :
    exceptMap Huffcdic.dict1_unpack vs = .error .assertFailed := by
  induction vs with
  | nil => simp at hbad
  | cons a rest ih =>
    rw [exceptMap]
    rcases hbad with ⟨v, hv, hvbad⟩
    rcases List.mem_cons.mp hv with rfl | hvrest
    · have hva : Huffcdic.dict1_unpack v = .error .assertFailed := by
        unfold Huffcdic.dict1_unpack
        by_cases h0 : v &&& 0x1F = 0
        · rw [if_pos h0]
        · rcases hvbad with h0' | hterm
          · exact absurd h0' h0
          · rw [if_neg h0, if_pos hterm]
      rw [hva]
    · cases ha : Huffcdic.dict1_unpack a with
      | error e1 => rw [dict1_unpack_error ha]
      | ok b => rw [ih ⟨v, hvrest, hvbad⟩]

/-- C3 (amended): `loadHuff` raises an assertion-style error whenever the
decoded 256-entry fast table contains an entry with `codeLength` zero, or a
NON-terminal entry with `codeLength <= 8` (the code asserts
`codelen != 0` and `codelen <= 8 -> term`; it accepts terminal entries of
any length).  On that failure no attribute has yet been assigned. -/
theorem c3_load_table_asserts (huff : List Nat) (st : HuffState) (off1 off2 : Nat)
    (vs : List Nat)
    (hmag : huff.take 8 = huffMagic)
    (hoffs : unpackU32s 2 huff 8 = some [off1, off2])
    (hvs : unpackU32s 256 huff off1 = some vs)
    (hbad : ∃ v ∈ vs, badDict1Val v) :
    Huffcdic.loadHuff huff st = (st, some PyErr.assertFailed) := by
  unfold Huffcdic.loadHuff
  rw [if_neg (not_not_intro hmag), hoffs]
  dsimp only
  rw [hvs]
  dsimp only
  rw [exceptMap_dict1_bad hbad]

/-- Witness for C3's amended statement: the all-zero table blob (every entry
has `codeLength = 0`) is rejected with `AssertionError`, state untouched. -/
theorem c3_witness :
    Huffcdic.loadHuff huffBlobLen0 HuffState.init = (HuffState.init, some PyErr.assertFailed) :=
  c3_load_table_asserts huffBlobLen0 HuffState.init 16 1040 (List.replicate 256 0)
    (by decide) (by decide) (by decide) ⟨0, by decide, Or.inl rfl⟩

/-- Counterexample to C3 as stated: `huffBlobTerm9` parses to a fast table
whose every raw entry is `0x89` — a *declared-terminal* entry
(`v AND 0x80 != 0`) with `codeLength = 9 > 8` — yet `loadHuff` accepts the
blob and returns without raising, because the source only asserts
`codelen != 0` and `codelen <= 8 -> term`, never `term -> codelen <= 8`. -/
theorem c3_counterexample :
    unpackU32s 256 huffBlobTerm9 16 = some (List.replicate 256 137) ∧
    137 &&& 0x1F = 9 ∧ 137 &&& 0x80 ≠ 0 ∧
    (Huffcdic.loadHuff huffBlobTerm9 HuffState.init).2 = none := by
  refine ⟨by decide, by decide, by decide, by decide⟩

/-- Witness for C10: the valid blob `huffBlobTerm9` loads successfully and
ends with an empty dictionary; `loadCdic` on a fresh object (attribute
`dictionary` never assigned) fails without touching the state. -/
theorem c10_witness :
    ((Huffcdic.loadHuff huffBlobTerm9 HuffState.init).1).dictionary = some [] ∧
    (∃ e, Huffcdic.loadCdic [1] HuffState.init = (HuffState.init, some e)) :=
  ⟨c10_load_order.1 huffBlobTerm9 HuffState.init
      (Huffcdic.loadHuff huffBlobTerm9 HuffState.init).1 (by decide),
   c10_load_order.2 [1] HuffState.init (by decide)⟩

/-- The first `n` bytes of the infinite cyclic repetition of `tail`,
rotating one byte per step (the spec-level description of what the
re-evaluated `o[-m]` fill actually produces). -/
def cycleTake : List Nat → Nat → List Nat
  | _, 0 => []
  | [], _ + 1 => []
  | t :: rest, n + 1 => t :: cycleTake (rest ++ [t]) n

/-- Python `o[-m]` for `1 <= m <= len o` is the element `m` before the end. -/
lemma pyGet_neg {o : List Nat} {m : Nat} (hm1 : 1 ≤ m) (hml : m ≤ o.length) :
    pyGet o (-(m : Int)) = o[o.length - m]? := by
  unfold pyGet pyIdx
  rw [if_pos (by omega : -(m : Int) < 0),
      if_pos (by omega : -(-(m : Int)) ≤ ((o.length : Nat) : Int)),
      (by omega : ((o.length : Nat) : Int) + -(m : Int) = ((o.length - m : Nat) : Int))]
  rw [Int.toNat_natCast]

/-- The run-length fill of `unpack3` with `1 <= m <= len o` appends, one byte
at a time, the cyclic repetition of the last `m` bytes of the pre-fill
output: iteration `k` reads position `-m` of the *grown* output, so the
source index drifts forward with the output. -/
lemma unpack3Fill_cycle :
    ∀ (n : Nat) (o : List Nat) (m : Nat), 1 ≤ m → m ≤ o.length →
      Palmdoc.unpack3Fill o m n = .ok (o ++ cycleTake (o.drop (o.length - m)) n) := by
  intro n
  induction n with
  | zero => intro o m _ _; simp [Palmdoc.unpack3Fill, cycleTake]
  | succ k ih =>
    intro o m hm1 hml
    have hlen : (o.drop (o.length - m)).length = m := by
      rw [List.length_drop]; omega
    cases htail : o.drop (o.length - m) with
    | nil => rw [htail] at hlen; simp at hlen; omega
    | cons t rest =>
      have hb : pyGet o (-(m : Int)) = some t := by
        rw [pyGet_neg hm1 hml, ← List.head?_drop, htail, List.head?_cons]
      simp only [Palmdoc.unpack3Fill, hb]
      rw [ih (o ++ [t]) m hm1 (by simp; omega)]
      have hdrop : (o ++ [t]).drop ((o ++ [t]).length - m) = rest ++ [t] := by
        rw [List.drop_append_eq_append_drop]
        have h1 : (o ++ [t]).length - m = (o.length - m) + 1 := by simp; omega
        rw [h1, ← List.drop_drop, htail]
        have h2 : o.length - m + 1 - o.length = 0 := by omega
        rw [h2]
        simp
      rw [hdrop]
      simp [htail, cycleTake]

/-- C1 (amended): a back-reference with `distance m <= length n` (and
`1 <= m <= len o`) appends `n` bytes one at a time, each read at index `-m`
of the output *as grown so far*: the source position drifts with the output,
so the appended bytes are the cyclic repetition of the last `m` bytes of the
pre-fill output (`cycleTake`), not `n` copies of the single byte found `m`
before the pre-fill end.  For `m = 1` the two coincide. -/
theorem c1_fill_drifts (gas : Nat) (i o : List Nat) (p c m n : Nat)
    (hp : p < i.length) (hc : i.getD p 0 = c) (h128 : 128 ≤ c) (h192 : c < 192)
    (hpl : p + 1 < i.length)
    (hm : m = (((c <<< 8) ||| i.getD (p + 1) 0) >>> 3) &&& 0x7FF)
    (hn : n = (((c <<< 8) ||| i.getD (p + 1) 0) &&& 7) + 3)
    (hmn : ¬ m > n) (hm1 : 1 ≤ m) (hml : m ≤ o.length) :
    Palmdoc.unpack3Loop i (gas + 1) o p =
      Palmdoc.unpack3Loop i gas (o ++ cycleTake (o.drop (o.length - m)) n) (p + 2) := by
  have h1' : ¬(1 ≤ c ∧ c ≤ 8) := by omega
  have h2' : ¬(c < 128) := by omega
  have h3' : ¬(192 ≤ c) := by omega
  simp only [Palmdoc.unpack3Loop, hc, hp, h1', h2', h3', hpl, if_true, if_false, ite_true,
    ite_false]
  rw [← hm, ← hn, if_neg hmn, unpack3Fill_cycle n o m hm1 hml]

/-- Counterexample to C1 as stated: decoding `[65, 66, 0x80, 0x10]` builds
output `[65, 66]` and then hits a back-reference with `distance = 2`,
`length = 3`.  The claim predicts three copies of `o[-2] = 65` from the
fixed pre-fill position — `[65, 66, 65, 65, 65]` — but the decoder produces
the drifting cyclic copy `[65, 66, 65, 66, 65]`. -/
theorem c1_counterexample :
    Palmdoc.unpack3 [65, 66, 128, 16] = .ok [65, 66, 65, 66, 65] ∧
    [65, 66, 65, 66, 65] ≠ [65, 66] ++ List.replicate 3 65 :=
  ⟨rfl, by decide⟩

/-- Witness for C1's amended statement at `o = [65, 66]`, `m = 2`, `n = 3`:
the fill appends `cycleTake [65, 66] 3 = [65, 66, 65]`. -/
theorem c1_witness :
    Palmdoc.unpack3Loop [128, 16] 1 [65, 66] 0 =
      Palmdoc.unpack3Loop [128, 16] 0 ([65, 66] ++ cycleTake ([65, 66].drop 0) 3) 2 ∧
    cycleTake [65, 66] 3 = [65, 66, 65] :=
  ⟨c1_fill_drifts 0 [128, 16] [65, 66] 0 128 2 3 (by decide) (by decide) (by decide) (by decide)
      (by decide) (by decide) (by decide) (by decide) (by decide) (by decide),
   rfl⟩

/-- The loop returns the output unchanged once the scan position has reached
the end of the input. -/
lemma unpack3Loop_done {i o : List Nat} {gas p : Nat} (h : ¬ p < i.length) :
    Palmdoc.unpack3Loop i gas o p = .ok o := by
  cases gas <;> simp [Palmdoc.unpack3Loop, h]

/-- With `0 < n`, a fill whose distance exceeds the current output length
raises `IndexError` at the first `o[-m]`. -/
lemma unpack3Fill_oob {o : List Nat} {m n : Nat} (hm : o.length < m) (hn : 0 < n) :
    Palmdoc.unpack3Fill o m n = .error .indexOut := by
  cases n with
  | zero => omega
  | succ k =>
    have h1 : pyGet o (-(m : Int)) = none := by
      unfold pyGet pyIdx
      rw [if_pos (by omega : -(m : Int) < 0),
          if_neg (by omega : ¬ -(-(m : Int)) ≤ ((o.length : Nat) : Int))]
    simp only [Palmdoc.unpack3Fill, h1]

/-- C4 (amended): `unpack3` raises no error for reads past the end of input
or bulk reads before the start of output — a raw-copy run whose `c` bytes
are not all present copies the silently truncated Python slice; a two-byte
back-reference missing its second byte is silently skipped (decoding ends);
a bulk back-reference copy (`distance > length`) appends the silently
clamped slice `o[-m : n-m]` whatever the output length.  The only guarded
case is the run-length fill, which raises an (untagged) `IndexError` when
`distance` exceeds the current output length. -/
theorem c4_oob_handling (gas : Nat) (i o : List Nat) (p c : Nat)
    (hp : p < i.length) (hc : i.getD p 0 = c) :
    (1 ≤ c → c ≤ 8 →
      Palmdoc.unpack3Loop i (gas + 1) o p =
        Palmdoc.unpack3Loop i gas
          (o ++ pySlice i ((p + 1 : Nat) : Int) ((p + 1 + c : Nat) : Int)) (p + 1 + c)) ∧
    (128 ≤ c → c < 192 → ¬ p + 1 < i.length →
      Palmdoc.unpack3Loop i (gas + 1) o p = .ok o) ∧
    (∀ m n, 128 ≤ c → c < 192 → p + 1 < i.length →
      m = (((c <<< 8) ||| i.getD (p + 1) 0) >>> 3) &&& 0x7FF →
      n = (((c <<< 8) ||| i.getD (p + 1) 0) &&& 7) + 3 →
      m > n →
      Palmdoc.unpack3Loop i (gas + 1) o p =
        Palmdoc.unpack3Loop i gas (o ++ pySlice o (-(m : Int)) ((n : Int) - (m : Int)))
          (p + 2)) ∧
    (∀ m n, 128 ≤ c → c < 192 → p + 1 < i.length →
      m = (((c <<< 8) ||| i.getD (p + 1) 0) >>> 3) &&& 0x7FF →
      n = (((c <<< 8) ||| i.getD (p + 1) 0) &&& 7) + 3 →
      ¬ m > n → o.length < m →
      Palmdoc.unpack3Loop i (gas + 1) o p = .error .indexOut) := by
  refine ⟨fun h1 h8 => ?_, fun h128 h192 hnp => ?_, fun m n h128 h192 hpl hm hn hmn => ?_,
    fun m n h128 h192 hpl hm hn hmn hml => ?_⟩
  · simp only [Palmdoc.unpack3Loop, hc, hp, h1, h8, if_true, if_false, ite_true, ite_false,
      and_self]
  · have h1' : ¬(1 ≤ c ∧ c ≤ 8) := by omega
    have h2' : ¬(c < 128) := by omega
    have h3' : ¬(192 ≤ c) := by omega
    simp only [Palmdoc.unpack3Loop, hc, hp, h1', h2', h3', hnp, if_true, if_false, ite_true,
      ite_false]
    exact unpack3Loop_done hnp
  · have h1' : ¬(1 ≤ c ∧ c ≤ 8) := by omega
    have h2' : ¬(c < 128) := by omega
    have h3' : ¬(192 ≤ c) := by omega
    simp only [Palmdoc.unpack3Loop, hc, hp, h1', h2', h3', hpl, if_true, if_false, ite_true,
      ite_false]
    rw [← hm, ← hn, if_pos hmn]
  · have h1' : ¬(1 ≤ c ∧ c ≤ 8) := by omega
    have h2' : ¬(c < 128) := by omega
    have h3' : ¬(192 ≤ c) := by omega
    simp only [Palmdoc.unpack3Loop, hc, hp, h1', h2', h3', hpl, if_true, if_false, ite_true,
      ite_false]
    rw [← hm, ← hn, if_neg hmn, unpack3Fill_oob hml (by omega)]

/-- Counterexample to C4 as stated: the raw-copy record `[5, 65]` asks for
five raw bytes with only one available; the decoder silently returns the
truncated `[65]` instead of failing with any `CorruptRecord`-style error. -/
theorem c4_counterexample :
    Palmdoc.unpack3 [5, 65] = .ok [65] ∧ (65 : Nat) ≠ 5 :=
  ⟨rfl, by decide⟩

/-- Witness for C4's amended statement: truncated raw copy, missing second
back-reference byte, out-of-window bulk copy, and out-of-window fill, each
at a concrete input. -/
theorem c4_witness :
    Palmdoc.unpack3Loop [5, 65] 1 [] 0 =
      Palmdoc.unpack3Loop [5, 65] 0 ([] ++ pySlice [5, 65] 1 6) 6 ∧
    Palmdoc.unpack3Loop [128] 1 [] 0 = .ok [] ∧
    Palmdoc.unpack3Loop [128, 32] 1 [] 0 =
      Palmdoc.unpack3Loop [128, 32] 0 ([] ++ pySlice [] (-4) (-1)) 2 ∧
    Palmdoc.unpack3Loop [128, 8] 1 [] 0 = .error .indexOut :=
  ⟨(c4_oob_handling 0 [5, 65] [] 0 5 (by decide) (by decide)).1 (by decide) (by decide),
   (c4_oob_handling 0 [128] [] 0 128 (by decide) (by decide)).2.1 (by decide) (by decide)
     (by decide),
   (c4_oob_handling 0 [128, 32] [] 0 128 (by decide) (by decide)).2.2.1 4 3 (by decide)
     (by decide) (by decide) (by decide) (by decide) (by decide),
   (c4_oob_handling 0 [128, 8] [] 0 128 (by decide) (by decide)).2.2.2 1 3 (by decide)
     (by decide) (by decide) (by decide) (by decide) (by decide) (by decide)⟩

/-- C2 (amended): when the decoded dictionary index `r` has no slot under
Python's index semantics (`r >= len(dictionary)`, or `r < -len`), the loop
fails immediately with an (untagged) `IndexError` and touches no slot; but a
negative `r` with `-len <= r < 0` is NOT rejected — Python indexing aliases
it to the physical slot `len + r`, which is then fetched with no error. -/
theorem c2_dict_index_bounds (fuel : Nat) (t : HTable) (data : List Nat) (pos x : Nat)
    (n bitsleft : Int) (s : List Nat) (d : List Slot) (code codelen maxcode : Nat) (r : Int)
    (hn0 : ¬ n ≤ 0)
    (hcode : code = (x >>> n.toNat) &&& 0xFFFFFFFF)
    (hres : Huffcdic.resolveCode t code = .ok (codelen, maxcode))
    (hbl : ¬ bitsleft - (codelen : Int) < 0)
    (hcl : ¬ 32 < codelen)
    (hr : r = Int.fdiv ((maxcode : Int) - (code : Int)) ((2 : Int) ^ (32 - codelen)))
    (hidx : pyIdx d.length r = none) :
    Huffcdic.huffLoop (fuel + 1) t data pos x n bitsleft s d = (.error .indexOut, d, []) ∧
    (∀ (len : Nat) (r2 : Int), r2 < 0 → -r2 ≤ (len : Int) →
      pyIdx len r2 = some ((len : Int) + r2).toNat) := by
  constructor
  · have hrel : Huffcdic.reload data pos x n = .ok (pos, x, n) := by
      unfold Huffcdic.reload; rw [if_neg hn0]
    have hng : ¬ n < 0 := by omega
    simp only [Huffcdic.huffLoop, hrel, hng, if_false, ite_false]
    rw [← hcode, hres]
    simp only [hbl, hcl, if_false, ite_false]
    rw [← hr, hidx]
  · intro len r2 h1 h2
    unfold pyIdx
    rw [if_pos h1, if_pos h2]

/-- Counterexample to C2 as stated: with one loaded slot (`[90]`, resolved)
and the loadable table `tableNegIdx`, the record `[0xFF]` makes the decoder
compute `r = (0xFEFFFFFF - 0xFF000000) >> 24 = -1`, which lies outside
`0 <= r < 1`; yet `unpack` raises nothing — Python indexing aliases `-1` to
the last slot, whose bytes `[90]` are returned as the decoded output. -/
theorem c2_counterexample :
    Huffcdic.unpack 10 tableNegIdx [some ([90], true)] [255] =
      (.ok [90], [some ([90], true)], []) ∧
    Int.fdiv ((0xFEFFFFFF : Int) - (0xFF000000 : Int)) ((2 : Int) ^ 24) = -1 ∧
    pyIdx 1 (-1) = some 0 := by
  refine ⟨by decide, by decide, by decide⟩

/-- Witness for C2's amended statement: with an empty dictionary the decoded
index `0` is out of bounds and one loop iteration fails with `IndexError`,
leaving the (empty) dictionary untouched; the alias clause applies at
`len = 1`, `r = -1`. -/
theorem c2_witness :
    Huffcdic.huffLoop 1 tableUniform [0, 0, 0, 0, 0, 0, 0, 0] 0 0 32 8 [] [] =
      (.error .indexOut, [], []) ∧
    pyIdx 1 (-1) = some ((1 : Int) + (-1 : Int)).toNat :=
  ⟨(c2_dict_index_bounds 0 tableUniform [0, 0, 0, 0, 0, 0, 0, 0] 0 0 32 8 [] [] 0 8 0x00FFFFFF 0
      (by decide) (by decide) (by decide) (by decide) (by decide) (by decide) (by decide)).1,
   (c2_dict_index_bounds 0 tableUniform [0, 0, 0, 0, 0, 0, 0, 0] 0 0 32 8 [] [] 0 8 0x00FFFFFF 0
      (by decide) (by decide) (by decide) (by decide) (by decide) (by decide) (by decide)).2
     1 (-1) (by decide) (by decide)⟩

/-- `reload` can only raise `struct.error`. -/
lemma reload_error {data : List Nat} {pos x : Nat} {n : Int} {e : PyErr}
    (h : Huffcdic.reload data pos x n = .error e) : e = .structShort := by
  unfold Huffcdic.reload at h
  split at h
  · split at h
    · exact (Except.error.inj h).symm
    · exact Except.noConfusion h
  · exact Except.noConfusion h

/-- The widening loop never returns a code length below its starting one. -/
lemma findLenAux_ge {code : Nat} :
    ∀ {l : List Nat} {j cl : Nat}, Huffcdic.findLenAux code l j = .ok cl → j ≤ cl := by
  intro l
  induction l with
  | nil => intro j cl h; exact Except.noConfusion h
  | cons mc rest ih =>
    intro j cl h
    rw [Huffcdic.findLenAux] at h
    split at h
    · exact Nat.le_of_succ_le (ih h)
    · cases Except.ok.inj h; exact le_rfl

/-- `findLenAux` can only raise `IndexError`. -/
lemma findLenAux_error {code : Nat} :
    ∀ {l : List Nat} {j : Nat} {e : PyErr}, Huffcdic.findLenAux code l j = .error e →
      e = .indexOut := by
  intro l
  induction l with
  | nil => intro j e h; exact (Except.error.inj h).symm
  | cons mc rest ih =>
    intro j e h
    rw [Huffcdic.findLenAux] at h
    split at h
    · exact ih h
    · exact Except.noConfusion h

/-- `resolveCode` can only raise `IndexError`. -/
lemma resolveCode_error {t : HTable} {code : Nat} {e : PyErr}
    (h : Huffcdic.resolveCode t code = .error e) : e = .indexOut := by
  unfold Huffcdic.resolveCode at h
  split at h
  · exact (Except.error.inj h).symm
  · split at h
    · exact Except.noConfusion h
    · split at h
      next e1 heq => cases Except.error.inj h; exact findLenAux_error heq
      · split at h
        · exact (Except.error.inj h).symm
        · exact Except.noConfusion h

/-- When every fast-table entry declares a nonzero code length, any code
length `resolveCode` returns is at least 1. -/
lemma resolveCode_ge_one {t : HTable} {code codelen maxcode : Nat}
    (hlen : ∀ e ∈ t.dict1, 1 ≤ e.1)
    (h : Huffcdic.resolveCode t code = .ok (codelen, maxcode)) : 1 ≤ codelen := by
  unfold Huffcdic.resolveCode at h
  cases hentry : t.dict1[code >>> 24]? with
  | none => rw [hentry] at h; exact Except.noConfusion h
  | some entry =>
    obtain ⟨cl0, term0, mc0⟩ := entry
    rw [hentry] at h
    dsimp only at h
    have hcl0 : 1 ≤ cl0 := hlen _ (List.getElem?_mem hentry)
    by_cases hterm : term0 = true
    · rw [if_pos hterm] at h
      have hpair := Except.ok.inj h
      rw [Prod.mk.injEq] at hpair
      exact hpair.1 ▸ hcl0
    · rw [if_neg hterm] at h
      cases hfl : Huffcdic.findLen t.mincode code cl0 with
      | error e1 => rw [hfl] at h; exact Except.noConfusion h
      | ok cl1 =>
        rw [hfl] at h
        dsimp only at h
        cases hmc : t.maxcode[cl1]? with
        | none => rw [hmc] at h; exact Except.noConfusion h
        | some mc1 =>
          rw [hmc] at h
          dsimp only at h
          have hpair := Except.ok.inj h
          rw [Prod.mk.injEq] at hpair
          have hfl2 : Huffcdic.findLenAux code (t.mincode.drop cl0) cl0 = .ok cl1 := hfl
          exact hpair.1 ▸ le_trans hcl0 (findLenAux_ge hfl2)

/-- A slot that is present and already resolved (`flag` truthy). -/
def slotResolvedB : Slot → Bool
  | some (_, true) => true
  | _ => false

/-- One iteration of the decode loop over a fully resolved dictionary either
ends the loop with a fuel-independent value (never the fuel artifact), or
consumes at least one bit of `bitsleft` and continues with the dictionary
unchanged. -/
lemma huffLoop_succ_resolved (t : HTable) (data : List Nat) (pos x : Nat) (n bl : Int)
    (s : List Nat) (d : List Slot)
    (hlen : ∀ e ∈ t.dict1, 1 ≤ e.1) (hres : ∀ sl ∈ d, slotResolvedB sl = true) :
    (∃ v : (Except PyErr (List Nat)) × List Slot × List Nat,
      v.1 ≠ .error .fuel ∧ ∀ g, Huffcdic.huffLoop (g + 1) t data pos x n bl s d = v) ∨
    (∃ (pos1 x1 : Nat) (n2 bl2 : Int) (slice : List Nat),
      0 ≤ bl2 ∧ bl2 + 1 ≤ bl ∧
      ∀ g, Huffcdic.huffLoop (g + 1) t data pos x n bl s d =
        Huffcdic.huffLoop g t data pos1 x1 n2 bl2 (s ++ slice) d) := by
  cases hrel : Huffcdic.reload data pos x n with
  | error e =>
    left
    refine ⟨(.error e, d, []), by rw [reload_error hrel]; simp, fun g => ?_⟩
    simp only [Huffcdic.huffLoop, hrel]
  | ok y =>
    obtain ⟨pos1, x1, n1⟩ := y
    by_cases hn1 : n1 < 0
    · left
      refine ⟨(.error .negShift, d, []), by simp, fun g => ?_⟩
      simp only [Huffcdic.huffLoop, hrel]
      try dsimp only
      rw [if_pos hn1]
    · cases hrc : Huffcdic.resolveCode t ((x1 >>> n1.toNat) &&& 4294967295) with
      | error e =>
        left
        refine ⟨(.error e, d, []), by rw [resolveCode_error hrc]; simp, fun g => ?_⟩
        simp only [Huffcdic.huffLoop, hrel]
        try dsimp only
        rw [if_neg hn1, hrc]
      | ok cm =>
        obtain ⟨codelen, maxcode⟩ := cm
        have hcl1 : 1 ≤ codelen := resolveCode_ge_one hlen hrc
        by_cases hblc : bl - (codelen : Int) < 0
        · left
          refine ⟨(.ok s, d, []), by simp, fun g => ?_⟩
          simp only [Huffcdic.huffLoop, hrel]
          try dsimp only
          rw [if_neg hn1, hrc]
          try dsimp only
          rw [if_pos hblc]
        · by_cases hcl32 : 32 < codelen
          · left
            refine ⟨(.error .negShift, d, []), by simp, fun g => ?_⟩
            simp only [Huffcdic.huffLoop, hrel]
            try dsimp only
            rw [if_neg hn1, hrc]
            try dsimp only
            rw [if_neg hblc, if_pos hcl32]
          · cases hpi : pyIdx d.length
              (Int.fdiv ((maxcode : Int) - (((x1 >>> n1.toNat) &&& 4294967295 : Nat) : Int))
                ((2 : Int) ^ (32 - codelen))) with
            | none =>
              left
              refine ⟨(.error .indexOut, d, []), by simp, fun g => ?_⟩
              simp only [Huffcdic.huffLoop, hrel]
              try dsimp only
              rw [if_neg hn1, hrc]
              try dsimp only
              rw [if_neg hblc, if_neg hcl32, hpi]
            | some phys =>
              cases hget : d[phys]? with
              | none =>
                left
                refine ⟨(.error .indexOut, d, []), by simp, fun g => ?_⟩
                simp only [Huffcdic.huffLoop, hrel]
                try dsimp only
                rw [if_neg hn1, hrc]
                try dsimp only
                rw [if_neg hblc, if_neg hcl32, hpi]
                try dsimp only
                rw [hget]
              | some sl =>
                have hsl := hres sl (List.getElem?_mem hget)
                cases sl with
                | none => simp [slotResolvedB] at hsl
                | some pair =>
                  obtain ⟨slice, flag⟩ := pair
                  cases flag with
                  | false => simp [slotResolvedB] at hsl
                  | true =>
                    right
                    refine ⟨pos1, x1, n1 - (codelen : Int), bl - (codelen : Int), slice,
                      by omega, by omega, fun g => ?_⟩
                    simp only [Huffcdic.huffLoop, hrel]
                    try dsimp only
                    rw [if_neg hn1, hrc]
                    try dsimp only
                    rw [if_neg hblc, if_neg hcl32, hpi]
                    try dsimp only
                    rw [hget]
                    try dsimp only
                    rw [if_pos rfl]

/-- Fuel beyond `bitsleft + 2` is irrelevant for a loaded table with nonzero
code lengths and a fully resolved dictionary: the loop's value is the same
for all sufficient budgets and is never the fuel artifact. -/
lemma huffLoop_stable :
    ∀ (k f f' : Nat) (t : HTable) (data : List Nat) (pos x : Nat) (n bl : Int)
      (s : List Nat) (d : List Slot),
      (∀ e ∈ t.dict1, 1 ≤ e.1) → (∀ sl ∈ d, slotResolvedB sl = true) →
      0 ≤ bl → bl + 2 ≤ (k : Int) → k ≤ f → k ≤ f' →
      Huffcdic.huffLoop f t data pos x n bl s d = Huffcdic.huffLoop f' t data pos x n bl s d ∧
      (Huffcdic.huffLoop f t data pos x n bl s d).1 ≠ .error .fuel := by
  intro k
  induction k with
  | zero =>
    intro f f' t data pos x n bl s d _ _ hbl0 hblk _ _
    exact absurd hblk (by omega)
  | succ k ih =>
    intro f f' t data pos x n bl s d hlen hres hbl0 hblk hf hf'
    obtain ⟨f1, rfl⟩ : ∃ f1, f = f1 + 1 := ⟨f - 1, by omega⟩
    obtain ⟨f1', rfl⟩ : ∃ f1', f' = f1' + 1 := ⟨f' - 1, by omega⟩
    rcases huffLoop_succ_resolved t data pos x n bl s d hlen hres with
      ⟨v, hv, hall⟩ | ⟨pos1, x1, n2, bl2, slice, hbl2, hdec, hall⟩
    · rw [hall f1, hall f1']
      exact ⟨rfl, hv⟩
    · rw [hall f1, hall f1']
      exact ih f1 f1' t data pos1 x1 n2 bl2 (s ++ slice) d hlen hres hbl2 (by
        push_cast at hblk ⊢
        omega) (by omega) (by omega)

/-- C7: over a code table whose 256 entries all declare `codeLength >= 1`
and a dictionary whose every slot is already resolved, `Huffcdic.unpack`
terminates: each iteration consumes at least one bit of the remaining-bit
counter (initially `8 * len(record)`), so a loop budget of
`8 * len(record) + 2` iterations is never exhausted — every larger budget
yields the identical result, which is never the out-of-budget artifact.
The loop's `.ok` value is by construction exactly the bytes appended before
the counter first went negative. -/
theorem c7_unpack_terminates (t : HTable) (d : List Slot) (record : List Nat)
    (hlen : ∀ e ∈ t.dict1, 1 ≤ e.1) (hres : ∀ sl ∈ d, slotResolvedB sl = true) :
    ∀ F, 8 * record.length + 2 ≤ F →
      Huffcdic.unpack F t d record = Huffcdic.unpack (8 * record.length + 2) t d record ∧
      (Huffcdic.unpack (8 * record.length + 2) t d record).1 ≠ .error .fuel := by
  intro F hF
  unfold Huffcdic.unpack
  have h := huffLoop_stable (8 * record.length + 2) (8 * record.length + 2) F t
    (record ++ zeros8) 0 (beNat ((record ++ zeros8).take 8)) 32 (8 * record.length) [] d
    hlen hres (by positivity) (by push_cast; omega) le_rfl hF
  exact ⟨h.1.symm, h.2⟩

/-- Witness for C7 on the one-byte record `[0]` with `tableUniform` and a
single resolved slot: the budget bound is `8 * 1 + 2 = 10`, fuel `11` gives
the same value, and the decoded output is the slot's bytes. -/
theorem c7_witness :
    (Huffcdic.unpack 11 tableUniform [some ([65], true)] [0] =
        Huffcdic.unpack 10 tableUniform [some ([65], true)] [0] ∧
      (Huffcdic.unpack 10 tableUniform [some ([65], true)] [0]).1 ≠ .error .fuel) ∧
    Huffcdic.unpack 10 tableUniform [some ([65], true)] [0] =
      (.ok [65], [some ([65], true)], []) :=
  ⟨c7_unpack_terminates tableUniform [some ([65], true)] [0] (by decide) (by decide) 11
      (by decide),
   by decide⟩

/-- Slot `j` of dictionary `d` holds compressed bytes not yet resolved. -/
def unresolvedAt (d : List Slot) (j : Nat) : Prop :=
  ∃ b, d[j]? = some (some (b, false))

/-- A successful Python index lookup names a physical slot inside the list. -/
lemma pyIdx_lt {len : Nat} {r : Int} {phys : Nat} (h : pyIdx len r = some phys) :
    phys < len := by
  unfold pyIdx at h
  split at h
  · split at h
    · cases Option.some.inj h; omega
    · exact Option.noConfusion h
  · split at h
    · cases Option.some.inj h; omega
    · exact Option.noConfusion h

/-- Componentwise view of an equation between triples. -/
lemma triple_eq {A B C : Type} {a a' : A} {b b' : B} {c c' : C}
    (h : (a, b, c) = (a', b', c')) : a = a' ∧ b = b' ∧ c = c' := by
  injection h with h1 h2
  injection h2 with h3 h4
  exact ⟨h1, h3, h4⟩

/-- The memoization clauses hold trivially of an empty event list with an
unchanged dictionary. -/
lemma memo_trivial {A : Type} {d : List Slot} {res : Except PyErr A} :
    ([] : List Nat).Nodup ∧ (∀ j ∈ ([] : List Nat), unresolvedAt d j) ∧
    (∀ j ∈ ([] : List Nat), ¬ unresolvedAt d j) ∧
    (∀ j, j ∉ ([] : List Nat) → d[j]? = d[j]?) ∧
    (∀ out : A, res = .ok out → ∀ j ∈ ([] : List Nat), ∃ b, d[j]? = some (some (b, true))) := by
  refine ⟨List.nodup_nil, ?_, ?_, fun _ _ => rfl, ?_⟩ <;> intros <;> simp_all

/-- Memoization invariant of one `unpack` loop run: the ghost event list
(physical indices of slots handed to a recursive decode) has no duplicates;
every event slot was unresolved before the run and is no longer unresolved
after it (it holds the `None` placeholder only if that particular recursive
decode raised); slots without an event are untouched; and on a successful
run every event slot ends resolved with its flag set. -/
lemma huffLoop_memo :
    ∀ (fuel : Nat) (t : HTable) (data : List Nat) (pos x : Nat) (n bl : Int)
      (s : List Nat) (d : List Slot) (res : Except PyErr (List Nat)) (d' : List Slot)
      (ev : List Nat),
      Huffcdic.huffLoop fuel t data pos x n bl s d = (res, d', ev) →
      ev.Nodup ∧ (∀ j ∈ ev, unresolvedAt d j) ∧ (∀ j ∈ ev, ¬ unresolvedAt d' j) ∧
      (∀ j, j ∉ ev → d'[j]? = d[j]?) ∧
      (∀ out, res = .ok out → ∀ j ∈ ev, ∃ b, d'[j]? = some (some (b, true))) := by
  intro fuel
  induction fuel with
  | zero =>
    intro t data pos x n bl s d res d' ev h
    simp only [Huffcdic.huffLoop] at h
    obtain ⟨h1, h2, h3⟩ := triple_eq h
    subst h1; subst h2; subst h3
    exact memo_trivial
  | succ fuel ih =>
    intro t data pos x n bl s d res d' ev h
    simp only [Huffcdic.huffLoop] at h
    cases hrel : Huffcdic.reload data pos x n with
    | error e =>
      rw [hrel] at h
      try dsimp only at h
      obtain ⟨h1, h2, h3⟩ := triple_eq h
      subst h1; subst h2; subst h3
      exact memo_trivial
    | ok y =>
      obtain ⟨pos1, x1, n1⟩ := y
      rw [hrel] at h
      try dsimp only at h
      by_cases hn1 : n1 < 0
      · rw [if_pos hn1] at h
        obtain ⟨h1, h2, h3⟩ := triple_eq h
        subst h1; subst h2; subst h3
        exact memo_trivial
      · rw [if_neg hn1] at h
        cases hrc : Huffcdic.resolveCode t ((x1 >>> n1.toNat) &&& 4294967295) with
        | error e =>
          rw [hrc] at h
          try dsimp only at h
          obtain ⟨h1, h2, h3⟩ := triple_eq h
          subst h1; subst h2; subst h3
          exact memo_trivial
        | ok cm =>
          obtain ⟨codelen, maxcode⟩ := cm
          rw [hrc] at h
          try dsimp only at h
          by_cases hblc : bl - (codelen : Int) < 0
          · rw [if_pos hblc] at h
            obtain ⟨h1, h2, h3⟩ := triple_eq h
            subst h1; subst h2; subst h3
            exact memo_trivial
          · rw [if_neg hblc] at h
            by_cases hcl32 : 32 < codelen
            · rw [if_pos hcl32] at h
              obtain ⟨h1, h2, h3⟩ := triple_eq h
              subst h1; subst h2; subst h3
              exact memo_trivial
            · rw [if_neg hcl32] at h
              cases hpi : pyIdx d.length
                  (Int.fdiv ((maxcode : Int) - (((x1 >>> n1.toNat) &&& 4294967295 : Nat) : Int))
                    ((2 : Int) ^ (32 - codelen))) with
              | none =>
                rw [hpi] at h
                try dsimp only at h
                obtain ⟨h1, h2, h3⟩ := triple_eq h
                subst h1; subst h2; subst h3
                exact memo_trivial
              | some phys =>
                rw [hpi] at h
                try dsimp only at h
                cases hget : d[phys]? with
                | none =>
                  rw [hget] at h
                  try dsimp only at h
                  obtain ⟨h1, h2, h3⟩ := triple_eq h
                  subst h1; subst h2; subst h3
                  exact memo_trivial
                | some sl =>
                  rw [hget] at h
                  cases sl with
                  | none =>
                    try dsimp only at h
                    obtain ⟨h1, h2, h3⟩ := triple_eq h
                    subst h1; subst h2; subst h3
                    exact memo_trivial
                  | some pair =>
                    obtain ⟨slice, flag⟩ := pair
                    cases flag with
                    | true =>
                      try dsimp only at h
                      rw [if_pos rfl] at h
                      exact ih t data pos1 x1 _ _ (s ++ slice) d res d' ev h
                    | false =>
                      try dsimp only at h
                      rw [if_neg (by simp)] at h
                      try dsimp only at h
                      rcases hrec : Huffcdic.huffLoop fuel t (slice ++ zeros8) 0
                          (beNat ((slice ++ zeros8).take 8)) 32 (8 * slice.length) []
                          (d.set phys none) with ⟨resR, dR, evR⟩
                      rw [hrec] at h
                      obtain ⟨nodR, unrR, nunrR, frameR, okR⟩ :=
                        ih t (slice ++ zeros8) 0 (beNat ((slice ++ zeros8).take 8)) 32
                          (8 * slice.length) [] (d.set phys none) resR dR evR hrec
                      have hplt : phys < d.length := pyIdx_lt hpi
                      have hUd : unresolvedAt d phys := ⟨slice, hget⟩
                      have hd1phys : (d.set phys none)[phys]? = some none :=
                        List.getElem?_set_self hplt
                      have hnotU1 : ¬ unresolvedAt (d.set phys none) phys := by
                        rintro ⟨b, hb⟩; rw [hd1phys] at hb; simp at hb
                      have hpnotR : phys ∉ evR := fun hm => hnotU1 (unrR phys hm)
                      have hdRphys : dR[phys]? = some none :=
                        (frameR phys hpnotR).trans hd1phys
                      have hjneR : ∀ j ∈ evR, j ≠ phys := fun j hj hje =>
                        hnotU1 (hje ▸ unrR j hj)
                      have hunrdR : ∀ j ∈ evR, unresolvedAt d j := by
                        intro j hj
                        obtain ⟨b, hb⟩ := unrR j hj
                        rw [List.getElem?_set_ne (Ne.symm (hjneR j hj))] at hb
                        exact ⟨b, hb⟩
                      cases resR with
                      | error e =>
                        try dsimp only at h
                        obtain ⟨h1, h2, h3⟩ := triple_eq h
                        subst h1; subst h2; subst h3
                        refine ⟨List.nodup_cons.mpr ⟨hpnotR, nodR⟩, ?_, ?_, ?_, ?_⟩
                        · intro j hj
                          rcases List.mem_cons.mp hj with rfl | hj2
                          · exact hUd
                          · exact hunrdR j hj2
                        · intro j hj
                          rcases List.mem_cons.mp hj with rfl | hj2
                          · rintro ⟨b, hb⟩; rw [hdRphys] at hb; simp at hb
                          · exact nunrR j hj2
                        · intro j hj
                          have hjne : j ≠ phys := fun hje => hj (hje ▸ List.mem_cons_self _ _)
                          have hjnR : j ∉ evR := fun hm => hj (List.mem_cons_of_mem _ hm)
                          rw [frameR j hjnR, List.getElem?_set_ne (Ne.symm hjne)]
                        · intro out hout; exact Except.noConfusion hout
                      | ok resolved =>
                        try dsimp only at h
                        rcases hfin : Huffcdic.huffLoop fuel t data pos1 x1
                            (n1 - (codelen : Int)) (bl - (codelen : Int)) (s ++ resolved)
                            (dR.set phys (some (resolved, true))) with ⟨resF, dF, evF⟩
                        rw [hfin] at h
                        try dsimp only at h
                        obtain ⟨h1, h2, h3⟩ := triple_eq h
                        subst h1; subst h2; subst h3
                        obtain ⟨nodF, unrF, nunrF, frameF, okF⟩ :=
                          ih t data pos1 x1 _ _ (s ++ resolved)
                            (dR.set phys (some (resolved, true))) resF dF evF hfin
                        have hRlt : phys < dR.length := by
                          by_contra hc
                          rw [List.getElem?_eq_none (by omega)] at hdRphys
                          exact Option.noConfusion hdRphys
                        have hd2phys :
                            (dR.set phys (some (resolved, true)))[phys]? =
                              some (some (resolved, true)) := List.getElem?_set_self hRlt
                        have hnotU2 :
                            ¬ unresolvedAt (dR.set phys (some (resolved, true))) phys := by
                          rintro ⟨b, hb⟩; rw [hd2phys] at hb; simp at hb
                        have hpnotF : phys ∉ evF := fun hm => hnotU2 (unrF phys hm)
                        have hjneF : ∀ j ∈ evF, j ≠ phys := fun j hj hje =>
                          hnotU2 (hje ▸ unrF j hj)
                        have hUdRF : ∀ j ∈ evF, unresolvedAt dR j := by
                          intro j hj
                          obtain ⟨b, hb⟩ := unrF j hj
                          rw [List.getElem?_set_ne (Ne.symm (hjneF j hj))] at hb
                          exact ⟨b, hb⟩
                        have hdisj : ∀ j ∈ evR, j ∉ evF := fun j hjR hjF =>
                          nunrR j hjR (hUdRF j hjF)
                        have hunrdF : ∀ j ∈ evF, unresolvedAt d j := by
                          intro j hj
                          have hUdR := hUdRF j hj
                          have hjnR : j ∉ evR := fun hm => nunrR j hm hUdR
                          obtain ⟨b, hb⟩ := hUdR
                          rw [frameR j hjnR,
                            List.getElem?_set_ne (Ne.symm (hjneF j hj))] at hb
                          exact ⟨b, hb⟩
                        have hdFphys : dF[phys]? = some (some (resolved, true)) :=
                          (frameF phys hpnotF).trans hd2phys
                        refine ⟨?_, ?_, ?_, ?_, ?_⟩
                        · refine List.nodup_cons.mpr ⟨?_, nodR.append nodF hdisj⟩
                          intro hm
                          rcases List.mem_append.mp hm with hm1 | hm2
                          · exact hpnotR hm1
                          · exact hpnotF hm2
                        · intro j hj
                          rcases List.mem_cons.mp hj with rfl | hj2
                          · exact hUd
                          · rcases List.mem_append.mp hj2 with hm1 | hm2
                            · exact hunrdR j hm1
                            · exact hunrdF j hm2
                        · intro j hj
                          rcases List.mem_cons.mp hj with rfl | hj2
                          · rintro ⟨b, hb⟩; rw [hdFphys] at hb; simp at hb
                          · rcases List.mem_append.mp hj2 with hm1 | hm2
                            · rintro ⟨b, hb⟩
                              rw [frameF j (hdisj j hm1),
                                List.getElem?_set_ne (Ne.symm (hjneR j hm1))] at hb
                              exact nunrR j hm1 ⟨b, hb⟩
                            · exact nunrF j hm2
                        · intro j hj
                          have hjne : j ≠ phys := fun hje => hj (hje ▸ List.mem_cons_self _ _)
                          have hjnR : j ∉ evR := fun hm =>
                            hj (List.mem_cons_of_mem _ (List.mem_append.mpr (Or.inl hm)))
                          have hjnF : j ∉ evF := fun hm =>
                            hj (List.mem_cons_of_mem _ (List.mem_append.mpr (Or.inr hm)))
                          rw [frameF j hjnF, List.getElem?_set_ne (Ne.symm hjne),
                            frameR j hjnR, List.getElem?_set_ne (Ne.symm hjne)]
                        · intro out hout j hj
                          rcases List.mem_cons.mp hj with rfl | hj2
                          · exact ⟨resolved, hdFphys⟩
                          · rcases List.mem_append.mp hj2 with hm1 | hm2
                            · obtain ⟨b, hb⟩ := okR resolved rfl j hm1
                              refine ⟨b, ?_⟩
                              rw [frameF j (hdisj j hm1),
                                List.getElem?_set_ne (Ne.symm (hjneR j hm1)), hb]
                            · exact okF out hout j hm2

/-- C6: across an entire document decode (`docUnpack` threads the shared
dictionary through the records in order), each dictionary slot's stored
compressed bytes are handed to the recursive decoder at most once — the
ghost event list of decoded physical indices has no duplicates; every event
names a slot that was unresolved beforehand and never unresolved afterward;
slots never referenced while unresolved keep their exact contents; and on a
successful decode every decoded slot ends replaced in place by
`(resolvedBytes, flag = true)`, so later references fetch the cached bytes
without invoking the decoder again. -/
theorem c6_memoized_document :
    ∀ (records : List (List Nat)) (fuel : Nat) (t : HTable) (d : List Slot)
      (res : Except PyErr (List (List Nat))) (d' : List Slot) (ev : List Nat),
      Huffcdic.docUnpack fuel t d records = (res, d', ev) →
      ev.Nodup ∧ (∀ j ∈ ev, unresolvedAt d j) ∧ (∀ j ∈ ev, ¬ unresolvedAt d' j) ∧
      (∀ j, j ∉ ev → d'[j]? = d[j]?) ∧
      (∀ outs, res = .ok outs → ∀ j ∈ ev, ∃ b, d'[j]? = some (some (b, true))) := by
  intro records
  induction records with
  | nil =>
    intro fuel t d res d' ev h
    simp only [Huffcdic.docUnpack] at h
    obtain ⟨h1, h2, h3⟩ := triple_eq h
    subst h1; subst h2; subst h3
    exact memo_trivial
  | cons record rest ih =>
    intro fuel t d res d' ev h
    simp only [Huffcdic.docUnpack] at h
    rcases hfirst : Huffcdic.unpack fuel t d record with ⟨res1, d1, ev1⟩
    rw [hfirst] at h
    obtain ⟨nod1, unr1, nunr1, frame1, ok1⟩ :=
      huffLoop_memo fuel t (record ++ zeros8) 0 (beNat ((record ++ zeros8).take 8)) 32
        (8 * record.length) [] d res1 d1 ev1 hfirst
    cases res1 with
    | error e =>
      try dsimp only at h
      obtain ⟨h1, h2, h3⟩ := triple_eq h
      subst h1; subst h2; subst h3
      exact ⟨nod1, unr1, nunr1, frame1, fun outs hout => Except.noConfusion hout⟩
    | ok s1 =>
      try dsimp only at h
      rcases hrest : Huffcdic.docUnpack fuel t d1 rest with ⟨res2, d2, ev2⟩
      rw [hrest] at h
      obtain ⟨nod2, unr2, nunr2, frame2, ok2⟩ := ih fuel t d1 res2 d2 ev2 hrest
      have hdisj : ∀ j ∈ ev1, j ∉ ev2 := fun j hj1 hj2 => nunr1 j hj1 (unr2 j hj2)
      have hunr : ∀ j ∈ ev1 ++ ev2, unresolvedAt d j := by
        intro j hj
        rcases List.mem_append.mp hj with hm1 | hm2
        · exact unr1 j hm1
        · have hU1 : unresolvedAt d1 j := unr2 j hm2
          have hjn1 : j ∉ ev1 := fun hm => nunr1 j hm hU1
          obtain ⟨b, hb⟩ := hU1
          rw [frame1 j hjn1] at hb
          exact ⟨b, hb⟩
      have hnunr : ∀ j ∈ ev1 ++ ev2, ¬ unresolvedAt d2 j := by
        intro j hj
        rcases List.mem_append.mp hj with hm1 | hm2
        · by_cases hj2 : j ∈ ev2
          · exact nunr2 j hj2
          · rintro ⟨b, hb⟩
            rw [frame2 j hj2] at hb
            exact nunr1 j hm1 ⟨b, hb⟩
        · exact nunr2 j hm2
      have hframe : ∀ j, j ∉ ev1 ++ ev2 → d2[j]? = d[j]? := by
        intro j hj
        have hjn1 : j ∉ ev1 := fun hm => hj (List.mem_append.mpr (Or.inl hm))
        have hjn2 : j ∉ ev2 := fun hm => hj (List.mem_append.mpr (Or.inr hm))
        rw [frame2 j hjn2, frame1 j hjn1]
      have hok : ∀ (outs2 : List (List Nat)), res2 = .ok outs2 →
          ∀ j ∈ ev1 ++ ev2, ∃ b, d2[j]? = some (some (b, true)) := by
        intro outs2 hout j hj
        rcases List.mem_append.mp hj with hm1 | hm2
        · by_cases hj2 : j ∈ ev2
          · exact ok2 outs2 hout j hj2
          · obtain ⟨b, hb⟩ := ok1 s1 rfl j hm1
            refine ⟨b, ?_⟩
            rw [frame2 j hj2, hb]
        · exact ok2 outs2 hout j hm2
      cases res2 with
      | error e =>
        try dsimp only at h
        obtain ⟨h1, h2, h3⟩ := triple_eq h
        subst h1; subst h2; subst h3
        exact ⟨nod1.append nod2 hdisj, hunr, hnunr, hframe,
          fun outs hout => Except.noConfusion hout⟩
      | ok outs2 =>
        try dsimp only at h
        obtain ⟨h1, h2, h3⟩ := triple_eq h
        subst h1; subst h2; subst h3
        exact ⟨nod1.append nod2 hdisj, hunr, hnunr, hframe,
          fun outs _ j hj => hok outs2 rfl j hj⟩

/-- Witness for C6: the document `[[0, 0], [0]]` over `tableUniform` with
one unresolved slot decodes that slot exactly once (event list `[0]`,
duplicate-free), the slot was unresolved before the document and ends
resolved with its flag set. -/
theorem c6_witness :
    ([0] : List Nat).Nodup ∧ unresolvedAt [some ([], false)] 0 ∧
      (∃ b, ([some (([] : List Nat), true)] : List Slot)[0]? = some (some (b, true))) := by
  have h := c6_memoized_document [[0, 0], [0]] 50 tableUniform [some ([], false)]
    (.ok [[], []]) [some ([], true)] [0] (by decide)
  exact ⟨h.1, h.2.1 0 (by decide), h.2.2.2.2 [[], []] rfl 0 (by decide)⟩
